import Mathlib

/-!
Verification of the metadata-viewer core (storage-prefix resolver, list-pattern
construction, format extractors, summarization adapter) against its
natural-language specification.  Python strings are modelled as Lean `String`
(a wrapped `List Char`, matching Python's code-point semantics); the relevant
Python `str` primitives (`startswith`, `rstrip`, `strip`, slicing) are embedded
explicitly below.
-/

/-! ## Python string primitives -/

/-- Python `s.startswith(pre)`: code-point prefix test. -/
def pyStartswith (s pre : String) : Bool := pre.data.isPrefixOf s.data

/-- Python `s.rstrip(chars)`: remove trailing characters belonging to `cs`. -/
def pyRstrip (s : String) (cs : List Char) : String :=
  ⟨(s.data.reverse.dropWhile (fun c => cs.contains c)).reverse⟩

/-- Python `s[n:]`: drop the first `n` code points. -/
def pyDrop (s : String) (n : Nat) : String := ⟨s.data.drop n⟩

/-- Boolean scan for a contiguous subsequence (Python `needle in hay`). -/
def containsSeq (needle : List Char) : List Char → Bool
  | [] => needle.isEmpty
  | c :: cs => needle.isPrefixOf (c :: cs) || containsSeq needle cs

/-! ## Regex fragment semantics for LS patterns

The listing collaborator interprets `PATTERN` as a regular expression that
must cover the whole object key.  The patterns built by the program use only
literal characters, `.` (any character), a postfix `*`, backslash escapes
(produced by `re.escape`), and an optional leading `^` anchor (redundant under
whole-key matching).  `rmatchF` is a fuel-indexed full matcher for exactly
that fragment; the fuel `p.length + s.length + 1` strictly dominates every
recursive call, so it is never exhausted. -/

def rmatchF : Nat → List Char → List Char → Bool
  | 0, _, _ => false
  | fuel+1, p, s =>
    match p, s with
    | [], s => s.isEmpty
    | '\\' :: a :: '*' :: pr, s =>
      rmatchF fuel pr s ||
        (match s with
         | [] => false
         | c :: cr => a == c && rmatchF fuel ('\\' :: a :: '*' :: pr) cr)
    | ['\\'], _ => false
    | '\\' :: a :: pr, s =>
      (match s with
       | [] => false
       | c :: cr => a == c && rmatchF fuel pr cr)
    | a :: '*' :: pr, s =>
      rmatchF fuel pr s ||
        (match s with
         | [] => false
         | c :: cr => (a == '.' || a == c) && rmatchF fuel (a :: '*' :: pr) cr)
    | a :: pr, s =>
      (match s with
       | [] => false
       | c :: cr => (a == '.' || a == c) && rmatchF fuel pr cr)

/-- Full-key regex match for the fragment above. -/
def rmatch (p s : List Char) : Bool := rmatchF (p.length + s.length + 1) p s

/-- Whole-key pattern match as the listing collaborator performs it; a
leading `^` is an anchor (a no-op under whole-key semantics). -/
def patMatch (pat key : String) : Bool :=
  rmatch (match pat.data with
          | '^' :: rest => rest
          | l => l) key.data

/-- Python `re.escape`: backslash-escape every character that is not an ASCII
letter, digit, or underscore. -/
def isWordChar (c : Char) : Bool :=
  ('a' ≤ c && c ≤ 'z') || ('A' ≤ c && c ≤ 'Z') || ('0' ≤ c && c ≤ '9') || c == '_'

def reEscape (s : String) : String :=
  ⟨s.data.flatMap (fun c => if isWordChar c then [c] else ['\\', c])⟩

/-! ## C1: LS pattern construction (source: `ls_pattern` build) -/

/-- Source: `if relative_prefix: escaped = re.escape(relative_prefix);
ls_pattern = f"^{relative_prefix}.*" else: ls_pattern = ".*"`.  Note the
source computes `escaped` but interpolates the raw, unescaped
` relative_prefix` into the pattern. -/
def ls_pattern ( relative_prefix : String) : String :=
  if relative_prefix ≠ "" then "^" ++ relative_prefix ++ ".*"
  else ".*"

/-! ## C2: relative prefix from the matched mount (source: `relative_from_ev`) -/

/-- Source: `if ev_s3_path == stage_url: relative_from_ev = ""
elif ev_s3_path.startswith(stage_url + "/"):
relative_from_ev = ev_s3_path[len(stage_url) + 1:] else: relative_from_ev = ""`. -/
def relative_from_ev (stage_url ev_s3_path : String) : String :=
  if ev_s3_path == stage_url then ""
  else if pyStartswith ev_s3_path (stage_url ++ "/") then
    pyDrop ev_s3_path (stage_url.length + 1)
  else ""

/-! ## C3: mount selection with `/` boundary (source: `resolved_stage` loop) -/

structure StageRow where
  stage_name : String
  database_name : String
  schema_name : String
  stage_url : String

/-- Source: `stage_url_candidate = row['STAGE_URL'].rstrip("/*").rstrip("/")`. -/
def normStageUrl (u : String) : String := pyRstrip (pyRstrip u ['/', '*']) ['/']

/-- Source: `ev_s3_path == stage_url_candidate or
ev_s3_path.startswith(stage_url_candidate + "/")`. -/
def stageMatches (ev_s3_path cand : String) : Bool :=
  ev_s3_path == cand || pyStartswith ev_s3_path (cand ++ "/")

/-- Source: the `for idx, row in stage_df.iterrows()` loop with `break` on the
first matching row, yielding the qualified stage name and its URL. -/
def resolved_stage (stage_df : List StageRow) (ev_s3_path : String) :
    Option (String × String) :=
  match stage_df.find? (fun row => stageMatches ev_s3_path (normStageUrl row.stage_url)) with
  | some row => some (row.database_name ++ "." ++ row.schema_name ++ "." ++ row.stage_name,
                      normStageUrl row.stage_url)
  | none => none

/-! ## JSON value model and a `json.loads` embedding (for the loose-record
extractor).  The numeric grammar is restricted to integers (the inspected
metadata records use integer literals); a numeric token with a fractional or
exponent part is treated as a parse failure. -/

inductive JVal where
  | jnull
  | jbool (b : Bool)
  | jnum (n : Int)
  | jstr (s : String)
  | jarr (elems : List JVal)
  | jobj (fields : List (String × JVal))

def lbrace : Char := Char.ofNat 123

def rbrace : Char := Char.ofNat 125

def jsonWsChar (c : Char) : Bool := c == ' ' || c == '\t' || c == '\n' || c == '\r'

def skipWs (s : List Char) : List Char := s.dropWhile jsonWsChar

def hexVal (c : Char) : Option Nat :=
  if '0' ≤ c && c ≤ '9' then some (c.toNat - 48)
  else if 'a' ≤ c && c ≤ 'f' then some (c.toNat - 87)
  else if 'A' ≤ c && c ≤ 'F' then some (c.toNat - 55)
  else none

def escChar (e : Char) : Option Char :=
  if e == '"' then some '"'
  else if e == '\\' then some '\\'
  else if e == '/' then some '/'
  else if e == 'b' then some (Char.ofNat 8)
  else if e == 'f' then some (Char.ofNat 12)
  else if e == 'n' then some (Char.ofNat 10)
  else if e == 'r' then some (Char.ofNat 13)
  else if e == 't' then some (Char.ofNat 9)
  else none

def parseStringBody : List Char → Option (List Char × List Char)
  | [] => none
  | c :: rest =>
    if c == '"' then some ([], rest)
    else if c == '\\' then
      match rest with
      | [] => none
      | e :: rest2 =>
        if e == 'u' then
          match rest2 with
          | h1 :: h2 :: h3 :: h4 :: rest3 =>
            match hexVal h1, hexVal h2, hexVal h3, hexVal h4 with
            | some v1, some v2, some v3, some v4 =>
              (parseStringBody rest3).map
                (fun r => (Char.ofNat (((v1 * 16 + v2) * 16 + v3) * 16 + v4) :: r.1, r.2))
            | _, _, _, _ => none
          | _ => none
        else
          match escChar e with
          | some ch => (parseStringBody rest2).map (fun r => (ch :: r.1, r.2))
          | none => none
    else if c.toNat < 32 then none
    else (parseStringBody rest).map (fun r => (c :: r.1, r.2))

def parseIntToken (s : List Char) : Option (Int × List Char) :=
  let neg : Bool := match s with
    | '-' :: _ => true
    | _ => false
  let s1 : List Char := match s with
    | '-' :: r => r
    | _ => s
  let digs := s1.takeWhile Char.isDigit
  let rest := s1.dropWhile Char.isDigit
  if digs.isEmpty then none
  else if 1 < digs.length && digs.head? == some '0' then none
  else
    match rest with
    | c :: _ =>
      if c == '.' || c == 'e' || c == 'E' then none
      else
        let v : Int := Int.ofNat (digs.foldl (fun a c => a * 10 + (c.toNat - 48)) 0)
        some (if neg then -v else v, rest)
    | [] =>
      let v : Int := Int.ofNat (digs.foldl (fun a c => a * 10 + (c.toNat - 48)) 0)
      some (if neg then -v else v, rest)

mutual

def parseVal : Nat → List Char → Option (JVal × List Char)
  | 0, _ => none
  | fuel+1, s =>
    match skipWs s with
    | [] => none
    | c :: rest =>
      if c == 'n' then
        match rest with
        | 'u' :: 'l' :: 'l' :: r => some (JVal.jnull, r)
        | _ => none
      else if c == 't' then
        match rest with
        | 'r' :: 'u' :: 'e' :: r => some (JVal.jbool true, r)
        | _ => none
      else if c == 'f' then
        match rest with
        | 'a' :: 'l' :: 's' :: 'e' :: r => some (JVal.jbool false, r)
        | _ => none
      else if c == '"' then
        match parseStringBody rest with
        | some (content, r) => some (JVal.jstr ⟨content⟩, r)
        | none => none
      else if c == '[' then
        match skipWs rest with
        | ']' :: r => some (JVal.jarr [], r)
        | _ =>
          match parseElems fuel rest with
          | some (xs, r) => some (JVal.jarr xs, r)
          | none => none
      else if c == lbrace then
        match skipWs rest with
        | c2 :: r =>
          if c2 == rbrace then some (JVal.jobj [], r)
          else
            match parseFields fuel rest with
            | some (fs, r2) => some (JVal.jobj fs, r2)
            | none => none
        | [] => none
      else
        match parseIntToken (c :: rest) with
        | some (n, r) => some (JVal.jnum n, r)
        | none => none

def parseElems : Nat → List Char → Option (List JVal × List Char)
  | 0, _ => none
  | fuel+1, s =>
    match parseVal fuel s with
    | none => none
    | some (v, r) =>
      match skipWs r with
      | ',' :: r2 =>
        match parseElems fuel r2 with
        | some (xs, r3) => some (v :: xs, r3)
        | none => none
      | ']' :: r2 => some ([v], r2)
      | _ => none

def parseFields : Nat → List Char → Option (List (String × JVal) × List Char)
  | 0, _ => none
  | fuel+1, s =>
    match skipWs s with
    | '"' :: r =>
      match parseStringBody r with
      | none => none
      | some (key, r2) =>
        match skipWs r2 with
        | ':' :: r3 =>
          match parseVal fuel r3 with
          | none => none
          | some (v, r4) =>
            match skipWs r4 with
            | c :: r5 =>
              if c == ',' then
                match parseFields fuel r5 with
                | some (fs, r6) => some ((⟨key⟩, v) :: fs, r6)
                | none => none
              else if c == rbrace then some ([(⟨key⟩, v)], r5)
              else none
            | [] => none
        | _ => none
    | _ => none

end

/-- Python `json.loads`: parse one value and require only whitespace after it. -/
def jsonLoads (s : String) : Option JVal :=
  match parseVal (2 * s.data.length + 2) s.data with
  | some (v, rest) => if (skipWs rest).isEmpty then some v else none
  | none => none

/-! ## C4: loose-record (JSON / NDJSON) extraction -/

/-- Python `\s`-style whitespace set used by `str.strip()` (ASCII whitespace,
C0 separators, and the Unicode space code points). -/
def isPySpaceB (c : Char) : Bool :=
  c == ' ' || (9 ≤ c.toNat && c.toNat ≤ 13) || (28 ≤ c.toNat && c.toNat ≤ 31) ||
  c.toNat == 133 || c.toNat == 160 || c.toNat == 0x1680 ||
  (0x2000 ≤ c.toNat && c.toNat ≤ 0x200a) ||
  c.toNat == 0x2028 || c.toNat == 0x2029 || c.toNat == 0x202f ||
  c.toNat == 0x205f || c.toNat == 0x3000

/-- Python `s.strip()`. -/
def pyStrip (s : String) : String :=
  ⟨((s.data.dropWhile isPySpaceB).reverse.dropWhile isPySpaceB).reverse⟩

/-- Line iteration over the downloaded file (`for line in f`), modelled as a
newline split; a trailing empty piece is blank and is skipped by the
extractor, matching Python's iteration that yields no final empty line. -/
def splitLinesAux (acc : List Char) : List Char → List String
  | [] => [⟨acc.reverse⟩]
  | c :: cs =>
    if c == '\n' then ⟨acc.reverse⟩ :: splitLinesAux [] cs
    else splitLinesAux (c :: acc) cs

def pySplitLines (s : String) : List String := splitLinesAux [] s.data

/-- Per-line behaviour of the NDJSON fallback loop: strip the line, skip it if
blank, parse it, and on parse failure keep the raw text under the reserved
`raw_line` key (source: `records.append({"raw_line": line})`). -/
def lineRecord (line : String) : Option JVal :=
  let t := pyStrip line
  if t = "" then none
  else some (match jsonLoads t with
    | some v => v
    | none => JVal.jobj [("raw_line", JVal.jstr t)])

/-- Source: the json/ndjson branch of the Read File handler.  Whole-file parse
first (a list yields its elements, any other value a single record); on
`JSONDecodeError`, re-scan line by line appending per-line records. -/
def looseRecords (content : String) : List JVal :=
  match jsonLoads content with
  | some (JVal.jarr xs) => xs
  | some v => [v]
  | none =>
    (pySplitLines content).foldl
      (fun acc line =>
        match lineRecord line with
        | some r => acc ++ [r]
        | none => acc) []

/-! ## C5: columnar (Parquet) metadata extraction tolerates unimplemented
statistics -/

structure ColStats where
  null_count : Option Int
  distinct_count : Option Int
  min : Option String
  max : Option String
  num_values : Option Int

/-- Outcome of touching `col.statistics` and its fields: present, absent
(`col.statistics is None`), or raising `NotImplementedError` /
`ArrowNotImplementedError` for the column's physical type. -/
inductive StatAccess where
  | absent
  | avail (s : ColStats)
  | notImplemented

structure ColumnChunk where
  path_in_schema : String
  physical_type : String
  compression : String
  encodings : List String
  stats_access : StatAccess

structure RowGroupMeta where
  num_rows : Int
  total_byte_size : Int
  cols : List ColumnChunk

structure SchemaField where
  name : String
  type : String
  nullable : Option Bool

structure ParquetMeta where
  created_by : Option String
  num_rows : Int
  num_columns : Int
  num_row_groups : Int
  arrow_schema : List SchemaField
  kv : List (String × String)
  row_groups : List RowGroupMeta

structure ColInfo where
  path_in_schema : String
  physical_type : String
  compression : String
  encodings : List String
  statistics : Option ColStats

structure RowGroupInfo where
  num_rows : Int
  total_byte_size : Int
  columns : List ColInfo

structure ParquetView where
  overview_created_by : Option String
  overview_num_rows : Int
  overview_num_columns : Int
  overview_num_row_groups : Int
  schema_df : List SchemaField
  kv : List (String × String)
  row_groups : List RowGroupInfo

/-- Source: the per-column body of `show_parquet_metadata`; the
`try/except (NotImplementedError, ArrowNotImplementedError)` handler leaves
`col_info["statistics"] = None` on the not-implemented condition. -/
def extractColInfo (col : ColumnChunk) : ColInfo :=
  { path_in_schema := col.path_in_schema
    physical_type := col.physical_type
    compression := col.compression
    encodings := col.encodings
    statistics :=
      match col.stats_access with
      | StatAccess.avail s => some s
      | StatAccess.absent => none
      | StatAccess.notImplemented => none }

/-- Source: `show_parquet_metadata` — overview, arrow schema, key-value pairs
(already decoded in the model) and the row-group/column loop. -/
def show_parquet_metadata (meta : ParquetMeta) : ParquetView :=
  { overview_created_by := meta.created_by
    overview_num_rows := meta.num_rows
    overview_num_columns := meta.num_columns
    overview_num_row_groups := meta.num_row_groups
    schema_df := meta.arrow_schema
    kv := meta.kv
    row_groups := meta.row_groups.map (fun rg =>
      { num_rows := rg.num_rows
        total_byte_size := rg.total_byte_size
        columns := rg.cols.map extractColInfo }) }

/-! ## C7: sanitization for the summarization oracle (`cleanse_for_cortex`) -/

def squote : Char := Char.ofNat 39

/-- Source: `s.replace("'", "''")` — double every single quote. -/
def doubleQuotes (l : List Char) : List Char :=
  l.flatMap (fun c => if c == squote then [squote, squote] else [c])

/-- Character class of `re.sub(r'[\n\r\t]+', ' ', s)`. -/
def isNlRtTabB (c : Char) : Bool := c == '\n' || c == '\r' || c == '\t'

/-- Character class of `re.sub(r'[\x00-\x1f\x7f-\x9f]+', ' ', s)`. -/
def isCtrlB (c : Char) : Bool :=
  c.toNat ≤ 0x1f || (0x7f ≤ c.toNat && c.toNat ≤ 0x9f)

/-- `re.sub(r'[class]+', ' ', s)`: every maximal nonempty run of class
characters becomes one space. -/
def collapseRunsAux (p : Char → Bool) : Bool → List Char → List Char
  | _, [] => []
  | inRun, c :: cs =>
    if p c then
      if inRun then collapseRunsAux p true cs
      else ' ' :: collapseRunsAux p true cs
    else c :: collapseRunsAux p false cs

def collapseRuns (p : Char → Bool) (l : List Char) : List Char := collapseRunsAux p false l

/-- State for `re.sub(r'\s{2,}', ' ', s)`: a lone class character is kept, a
run of two or more becomes one space. -/
inductive RunState where
  | normal
  | pend (d : Char)
  | skipRun

def collapse2Aux (p : Char → Bool) : RunState → List Char → List Char
  | RunState.pend d, [] => [d]
  | _, [] => []
  | RunState.normal, c :: cs =>
    if p c then collapse2Aux p (RunState.pend c) cs
    else c :: collapse2Aux p RunState.normal cs
  | RunState.pend d, c :: cs =>
    if p c then ' ' :: collapse2Aux p RunState.skipRun cs
    else d :: c :: collapse2Aux p RunState.normal cs
  | RunState.skipRun, c :: cs =>
    if p c then collapse2Aux p RunState.skipRun cs
    else c :: collapse2Aux p RunState.normal cs

def collapse2 (p : Char → Bool) (l : List Char) : List Char :=
  collapse2Aux p RunState.normal l

/-- Source: the body of `cleanse_for_cortex` after serialization — quote
doubling, newline/tab-run collapse, control-run collapse, whitespace-run
collapse, truncation to `max_len`. -/
def cleanseText (s : String) (max_len : Nat) : String :=
  ⟨(collapse2 isPySpaceB
      (collapseRuns isCtrlB
        (collapseRuns isNlRtTabB
          (doubleQuotes s.data)))).take max_len⟩

/-- Source: `cleanse_for_cortex(record, max_len)`; serialization
(`json.dumps(record, default=str)`) is an external step modelled by its
outcome `ser`, with `str(record)` as the `except` fallback. -/
def cleanse_for_cortex (ser : Option String) (fallback : String) (max_len : Nat) : String :=
  cleanseText (ser.getD fallback) max_len

/-! ## C6: safe summarization call (`safe_cortex_call`) -/

/-- Result frame of `session.sql(...).to_pandas()`. -/
structure PandasDF where
  columns : List String
  rows : List (List String)

inductive SqlOutcome where
  | ok (df : PandasDF)
  | err (msg : String)

/-- `df.iloc[0]['MODEL_OUTPUT']`: first row, named column; `none` models the
raised `IndexError`/`KeyError` on an empty or ragged frame. -/
def dfCell? (df : PandasDF) (colName : String) : Option String :=
  match df.rows.head? with
  | none => none
  | some row =>
    match df.columns.indexOf? colName with
    | none => none
    | some idx => row[idx]?

/-- `df.iloc[0, 0]`. -/
def iloc00? (df : PandasDF) : Option String :=
  match df.rows.head? with
  | none => none
  | some row => row.head?

/-- Source: the `sql_ai` template with the sanitized text interpolated. -/
def sql_ai (safe_text : String) : String :=
  "SELECT SNOWFLAKE.CORTEX.COMPLETE(\x27mistral-large\x27, \x27Can you summarize the output here in bullets?: "
    ++ safe_text ++ "\x27) AS MODEL_OUTPUT;"

/-- Source: the `try` body of `safe_cortex_call` after the service call —
pick `MODEL_OUTPUT` when present, else the first cell; a missing row is the
raised error the `except` absorbs. -/
def safe_cortex_body (outcome : SqlOutcome) : Except String String :=
  match outcome with
  | SqlOutcome.err e => Except.error e
  | SqlOutcome.ok df =>
    if df.columns.contains "MODEL_OUTPUT" then
      match dfCell? df "MODEL_OUTPUT" with
      | some v => Except.ok v
      | none => Except.error "single positional indexer is out-of-bounds"
    else
      match iloc00? df with
      | some v => Except.ok v
      | none => Except.error "single positional indexer is out-of-bounds"

/-- Source: `safe_cortex_call(record)`; the external service is the oracle
`svc` from prompt to outcome, and the `except Exception as e` handler returns
the placeholder `f"AI summary skipped: {e}"`. -/
def safe_cortex_call (ser : Option String) (fallback : String)
    (svc : String → SqlOutcome) : String :=
  let safe_text := cleanse_for_cortex ser fallback 3000
  match safe_cortex_body (svc (sql_ai safe_text)) with
  | Except.ok v => v
  | Except.error e => "AI summary skipped: " ++ e

/-! ## C8: per-request scratch directory is always released -/

/-- Abstract file-system state: the set of live scratch directories. -/
structure FSState where
  dirs : List String

inductive StepOutcome where
  | ok
  | exc (msg : String)

/-- Source: the Read File handler — `tmp_dir = tempfile.mkdtemp(...)` before
the `try`, then download, read/analyze and summarization steps inside it, the
`except` reporting `Error reading or analyzing file: ...`, and the
`finally: shutil.rmtree(tmp_dir)` executed on every path. -/
def read_file_request (tmp_dir : String) (download analyze summarize : StepOutcome)
    (fs : FSState) : FSState × Option String :=
  let fs1 : FSState := ⟨tmp_dir :: fs.dirs⟩
  let errMsg : Option String :=
    match download with
    | StepOutcome.exc m => some ("Error reading or analyzing file: " ++ m)
    | StepOutcome.ok =>
      match analyze with
      | StepOutcome.exc m => some ("Error reading or analyzing file: " ++ m)
      | StepOutcome.ok =>
        match summarize with
        | StepOutcome.exc m => some ("Error reading or analyzing file: " ++ m)
        | StepOutcome.ok => none
  let fs2 : FSState := ⟨fs1.dirs.erase tmp_dir⟩
  (fs2, errMsg)

/-! ## C9: self-describing (Avro) record streaming cap -/

/-- Source: the avro branch — `for i, record in enumerate(reader):
records.append(record); if i >= 9999999: break` over a possibly-unbounded
iterator (`none` models iterator exhaustion).  The structural fuel `10000000`
equals the number of iterations the `break` bound admits, so it is never the
limiting factor. -/
def avroLoop (α : Type) (reader : Nat → Option α) : Nat → Nat → List α
  | 0, _ => []
  | fuel+1, i =>
    match reader i with
    | none => []
    | some r => r :: (if 9999999 ≤ i then [] else avroLoop α reader fuel (i+1))

def avroRecords (α : Type) (reader : Nat → Option α) : List α :=
  avroLoop α reader 10000000 0

/-- Plain stream prefix of length `n` starting at index `i`, used to state
what the capped loop computes. -/
def takeStream (α : Type) (reader : Nat → Option α) : Nat → Nat → List α
  | 0, _ => []
  | n+1, i =>
    match reader i with
    | none => []
    | some r => r :: takeStream α reader n (i+1)

/-! ## C10: file label construction and label-based selection -/

/-- Source: `files_df['LABEL'] = files_df['NAME'] + " | " +
files_df['LAST_MODIFIED'].astype(str)`. -/
def fileLabel (name last_modified : String) : String := name ++ " | " ++ last_modified

/-- Python `label.split(" | ")[0]`: the prefix before the leftmost occurrence
of the separator (the whole string when the separator does not occur). -/
def pySplitFirst (sep : List Char) : List Char → List Char
  | [] => []
  | c :: cs => if sep.isPrefixOf (c :: cs) then [] else c :: pySplitFirst sep cs

/-- Source: `selected_file_only_path = selected_file.split(" | ")[0]`. -/
def selected_file_only_path (label : String) : String :=
  ⟨pySplitFirst " | ".data label.data⟩

/-! ## Theorems -/

theorem rmatchF_dotstar : ∀ (s : List Char), rmatchF (s.length + 3) ['.', '*'] s = true := by
  intro s
  induction s with
  | nil => rfl
  | cons c cs ih =>
    show rmatchF (cs.length + 1 + 3) ['.', '*'] (c :: cs) = true
    have h1 : cs.length + 1 + 3 = (cs.length + 3) + 1 := by omega
    rw [h1]
    show (rmatchF (cs.length + 3) [] (c :: cs) ||
      (('.' == '.' || '.' == c) && rmatchF (cs.length + 3) ['.', '*'] cs)) = true
    simp [ih]

theorem patMatch_dotstar (key : String) : patMatch ".*" key = true := by
  show rmatch ['.', '*'] key.data = true
  show rmatchF (['.', '*'].length + key.data.length + 1) ['.', '*'] key.data = true
  have h : ['.', '*'].length + key.data.length + 1 = key.data.length + 3 := by
    simp; omega
  rw [h]
  exact rmatchF_dotstar key.data

/-- C1: the claim states the constructed `list_pattern` matches exactly the
object keys beginning with ` relative_prefix`, with pattern-special characters
escaped.  The source computes the escaped form but drops it, interpolating the
raw prefix; for the prefix `"a.b"` the built pattern `"^a.b.*"` also matches
the key `"aXb/f"`, which does not begin with `"a.b"`, whereas the escaped
pattern the claim (and the dead `escaped` variable) intends matches only keys
beginning with `"a.b"`.  The empty-prefix branch does match every key. -/
theorem ls_pattern_escaping_code_bug :
    ls_pattern "a.b" = "^a.b.*" ∧
    patMatch (ls_pattern "a.b") "aXb/f" = true ∧
    pyStartswith "aXb/f" "a.b" = false ∧
    patMatch ("^" ++ reEscape "a.b" ++ ".*") "aXb/f" = false ∧
    patMatch ("^" ++ reEscape "a.b" ++ ".*") "a.b/f" = true ∧
    ls_pattern "" = ".*" ∧
    (∀ key : String, patMatch (ls_pattern "") key = true) := by
  refine ⟨by decide, by decide, by decide, by decide, by decide, by decide, ?_⟩
  intro key
  exact patMatch_dotstar key

/-- C2: when the mount root matches the volume root (equality or `/`-boundary
path-prefix), the computed relative prefix is the remainder of the volume root
after the mount root and exactly one separator, and is empty on equality. -/
theorem relative_from_ev_strips_mount_and_separator (stage_url ev_s3_path : String)
    (h : ev_s3_path = stage_url ∨ pyStartswith ev_s3_path (stage_url ++ "/") = true) :
    (ev_s3_path = stage_url → relative_from_ev stage_url ev_s3_path = "") ∧
    (ev_s3_path ≠ stage_url →
      ∃ rest : List Char, ev_s3_path.data = stage_url.data ++ '/' :: rest ∧
        (relative_from_ev stage_url ev_s3_path).data = rest) := by
  constructor
  · intro he
    simp [relative_from_ev, he]
  · intro hne
    have hb : (ev_s3_path == stage_url) = false := beq_eq_false_iff_ne.mpr hne
    have hs : pyStartswith ev_s3_path (stage_url ++ "/") = true := h.resolve_left hne
    have hpre : (stage_url ++ "/").data <+: ev_s3_path.data :=
      List.isPrefixOf_iff_prefix.mp hs
    obtain ⟨t, ht⟩ := hpre
    have hdata : (stage_url ++ "/").data = stage_url.data ++ ['/'] := by
      rw [String.data_append]
    refine ⟨t, ?_, ?_⟩
    · rw [← ht, hdata]
      simp
    · have : relative_from_ev stage_url ev_s3_path = pyDrop ev_s3_path (stage_url.length + 1) := by
        simp [relative_from_ev, hb, hs]
      rw [this]
      show ev_s3_path.data.drop (stage_url.length + 1) = t
      have hlen : stage_url.length = stage_url.data.length := rfl
      rw [hlen, ← ht, hdata, List.append_assoc]
      have h2 : stage_url.data.length + 1 = (stage_url.data ++ ['/']).length := by
        simp
      rw [h2, ← List.append_assoc]
      exact List.drop_left _ _

/-- Witness for C2 at the spec's own example: mount root `s3://bucket/a`,
volume root `s3://bucket/a/b` gives `"b"`, and equal roots give `""`. -/
theorem relative_from_ev_witness :
    relative_from_ev "s3://bucket/a" "s3://bucket/a" = "" ∧
    relative_from_ev "s3://bucket/a" "s3://bucket/a/b" = "b" ∧
    (∃ rest : List Char, ("s3://bucket/a/b" : String).data =
      ("s3://bucket/a" : String).data ++ '/' :: rest ∧
      (relative_from_ev "s3://bucket/a" "s3://bucket/a/b").data = rest) :=
  ⟨(relative_from_ev_strips_mount_and_separator "s3://bucket/a" "s3://bucket/a"
      (Or.inl rfl)).1 rfl,
   by decide,
   (relative_from_ev_strips_mount_and_separator "s3://bucket/a" "s3://bucket/a/b"
      (Or.inr (by decide))).2 (by decide)⟩

/-- C3: a mount is selected only when its normalized root equals the volume
root or is followed by a `/` boundary inside it; in particular the root
`s3://bucket/mount-1` is never selected for `s3://bucket/mount-10/x`. -/
theorem resolved_stage_boundary (stage_df : List StageRow) (ev_s3_path name url : String)
    (h : resolved_stage stage_df ev_s3_path = some (name, url)) :
    (ev_s3_path = url ∨ ∃ rest : List Char, ev_s3_path.data = url.data ++ '/' :: rest) ∧
    (∃ row ∈ stage_df, url = normStageUrl row.stage_url) ∧
    resolved_stage [⟨"S1", "DB", "SCH", "s3://bucket/mount-1"⟩] "s3://bucket/mount-10/x"
      = none := by
  unfold resolved_stage at h
  cases hf : stage_df.find?
      (fun row => stageMatches ev_s3_path (normStageUrl row.stage_url)) with
  | none => rw [hf] at h; exact absurd h (by simp)
  | some row =>
    rw [hf] at h
    have hurl : url = normStageUrl row.stage_url := by
      have h2 := Option.some.inj h
      exact ((Prod.ext_iff.mp h2).2).symm
    have hp : stageMatches ev_s3_path (normStageUrl row.stage_url) = true := by
      have h3 := List.find?_some hf
      simpa using h3
    rw [← hurl] at hp
    have hor := Bool.or_eq_true_iff.mp hp
    refine ⟨?_, ⟨row, List.mem_of_find?_eq_some hf, hurl⟩, by decide⟩
    cases hor with
    | inl he => exact Or.inl (eq_of_beq he)
    | inr hs =>
      obtain ⟨t, ht⟩ := List.isPrefixOf_iff_prefix.mp hs
      refine Or.inr ⟨t, ?_⟩
      have hdata : (url ++ "/").data = url.data ++ ['/'] := by
        rw [String.data_append]
      rw [← ht, hdata]
      simp

/-- Witness for C3: a boundary-matching mount is resolved and the theorem's
conclusion holds at that input. -/
theorem resolved_stage_witness :
    ("s3://bucket/a/b" = "s3://bucket/a" ∨
      ∃ rest : List Char, ("s3://bucket/a/b" : String).data =
        ("s3://bucket/a" : String).data ++ '/' :: rest) ∧
    (∃ row ∈ [(⟨"S1", "DB", "SCH", "s3://bucket/a"⟩ : StageRow)],
      "s3://bucket/a" = normStageUrl row.stage_url) ∧
    resolved_stage [⟨"S1", "DB", "SCH", "s3://bucket/mount-1"⟩] "s3://bucket/mount-10/x"
      = none :=
  resolved_stage_boundary [⟨"S1", "DB", "SCH", "s3://bucket/a"⟩] "s3://bucket/a/b"
    "DB.SCH.S1" "s3://bucket/a" (by decide)

theorem foldl_append_filterMap (f : String → Option JVal) (l : List String) :
    ∀ acc : List JVal,
      l.foldl (fun acc line =>
        match f line with
        | some r => acc ++ [r]
        | none => acc) acc = acc ++ l.filterMap f := by
  induction l with
  | nil => intro acc; simp
  | cons x xs ih =>
    intro acc
    cases hfx : f x with
    | none => simp [hfx, ih, List.filterMap_cons]
    | some r => simp [hfx, ih, List.filterMap_cons]

/-- C4: whole-file JSON parse takes priority — an array yields one record per
element and any other value a single record; when whole-file parse fails,
every non-blank line yields exactly one record, with unparsable lines
preserved under the reserved `raw_line` key; the spec's three-line example
yields exactly three records. -/
theorem looseRecords_spec :
    (∀ content xs, jsonLoads content = some (JVal.jarr xs) → looseRecords content = xs) ∧
    (∀ content v, jsonLoads content = some v → (∀ xs, v ≠ JVal.jarr xs) →
      looseRecords content = [v]) ∧
    (∀ content, jsonLoads content = none →
      looseRecords content = (pySplitLines content).filterMap lineRecord) ∧
    looseRecords "\x7b\x22a\x22:1\x7d\n\x7b\x22b\x22:2\x7d\nnot-json\n" =
      [JVal.jobj [("a", JVal.jnum 1)], JVal.jobj [("b", JVal.jnum 2)],
       JVal.jobj [("raw_line", JVal.jstr "not-json")]] := by
  refine ⟨?_, ?_, ?_, ?_⟩
  · intro content xs h
    simp [looseRecords, h]
  · intro content v h hne
    cases v with
    | jarr xs => exact absurd rfl (hne xs)
    | jnull => simp [looseRecords, h]
    | jbool b => simp [looseRecords, h]
    | jnum n => simp [looseRecords, h]
    | jstr s => simp [looseRecords, h]
    | jobj fs => simp [looseRecords, h]
  · intro content h
    show (match jsonLoads content with
      | some (JVal.jarr xs) => xs
      | some v => [v]
      | none =>
        (pySplitLines content).foldl
          (fun acc line =>
            match lineRecord line with
            | some r => acc ++ [r]
            | none => acc) []) = (pySplitLines content).filterMap lineRecord
    rw [h]
    rw [foldl_append_filterMap lineRecord (pySplitLines content) []]
    rfl
  · rfl

/-- Witness for C4: the spec's one-record and two-record examples, obtained by
applying the theorem at concrete inputs. -/
theorem looseRecords_witness :
    looseRecords "[\x7b\x22a\x22:1\x7d,\x7b\x22a\x22:2\x7d]" =
      [JVal.jobj [("a", JVal.jnum 1)], JVal.jobj [("a", JVal.jnum 2)]] ∧
    looseRecords "\x7b\x22a\x22:1\x7d" = [JVal.jobj [("a", JVal.jnum 1)]] :=
  ⟨looseRecords_spec.1 _ _ rfl,
   looseRecords_spec.2.1 _ _ rfl (fun _ h => JVal.noConfusion h)⟩

/-- C5: a column whose statistics accessor raises the not-implemented
condition is recorded with absent statistics while all its other fields, every
other column, every row group, the schema and the overview are still returned;
the extraction is total (no failure is propagated). -/
theorem show_parquet_metadata_tolerates_missing_stats (meta : ParquetMeta) :
    (show_parquet_metadata meta).row_groups.length = meta.row_groups.length ∧
    (∀ i : Nat, (show_parquet_metadata meta).row_groups[i]? =
      (meta.row_groups[i]?).map (fun rg =>
        { num_rows := rg.num_rows
          total_byte_size := rg.total_byte_size
          columns := rg.cols.map extractColInfo : RowGroupInfo })) ∧
    (∀ col : ColumnChunk, col.stats_access = StatAccess.notImplemented →
      (extractColInfo col).statistics = none ∧
      (extractColInfo col).path_in_schema = col.path_in_schema ∧
      (extractColInfo col).physical_type = col.physical_type ∧
      (extractColInfo col).compression = col.compression ∧
      (extractColInfo col).encodings = col.encodings) ∧
    (∀ (col : ColumnChunk) (s : ColStats), col.stats_access = StatAccess.avail s →
      (extractColInfo col).statistics = some s) ∧
    (show_parquet_metadata meta).schema_df = meta.arrow_schema ∧
    (show_parquet_metadata meta).kv = meta.kv ∧
    (show_parquet_metadata meta).overview_num_rows = meta.num_rows ∧
    (show_parquet_metadata meta).overview_created_by = meta.created_by := by
  refine ⟨by simp [show_parquet_metadata], ?_, ?_, ?_, rfl, rfl, rfl, rfl⟩
  · intro i
    simp [show_parquet_metadata, List.getElem?_map]
  · intro col h
    exact ⟨by simp [extractColInfo, h], rfl, rfl, rfl, rfl⟩
  · intro col s h
    simp [extractColInfo, h]

/-- Witness for C5 at a concrete two-column file: the not-implemented column
is recorded with absent statistics, the other column keeps its statistics. -/
theorem show_parquet_metadata_witness :
    (extractColInfo ⟨"c0", "INT96", "SNAPPY", ["PLAIN"], StatAccess.notImplemented⟩).statistics
      = none ∧
    (extractColInfo ⟨"c1", "INT32", "SNAPPY", ["PLAIN"],
        StatAccess.avail ⟨some 0, none, some "1", some "9", some 4⟩⟩).statistics
      = some ⟨some 0, none, some "1", some "9", some 4⟩ :=
  ⟨((show_parquet_metadata_tolerates_missing_stats
      ⟨none, 0, 0, 0, [], [], []⟩).2.2.1 _ rfl).1,
   (show_parquet_metadata_tolerates_missing_stats
      ⟨none, 0, 0, 0, [], [], []⟩).2.2.2.1 _ _ rfl⟩

theorem collapseRunsAux_no_p (p : Char → Bool) (hp : p ' ' = false) :
    ∀ (l : List Char) (b : Bool) (c : Char), c ∈ collapseRunsAux p b l → p c = false := by
  intro l
  induction l with
  | nil => intro b c hc; simp [collapseRunsAux] at hc
  | cons d cs ih =>
    intro b c hc
    by_cases hd : p d = true
    · rw [collapseRunsAux, if_pos hd] at hc
      cases b with
      | true => exact ih true c hc
      | false =>
        simp only [Bool.false_eq_true, if_false, List.mem_cons] at hc
        cases hc with
        | inl he => rw [he]; exact hp
        | inr hm => exact ih true c hm
    · rw [collapseRunsAux, if_neg hd] at hc
      cases List.mem_cons.mp hc with
      | inl he => rw [he]; exact eq_false_of_ne_true hd
      | inr hm => exact ih false c hm

theorem collapse2Aux_mem (p : Char → Bool) :
    ∀ (l : List Char) (st : RunState) (c : Char), c ∈ collapse2Aux p st l →
      c ∈ l ∨ c = ' ' ∨ (∃ d, st = RunState.pend d ∧ c = d) := by
  intro l
  induction l with
  | nil =>
    intro st c hc
    cases st with
    | pend d =>
      simp only [collapse2Aux, List.mem_singleton] at hc
      exact Or.inr (Or.inr ⟨d, rfl, hc⟩)
    | normal => simp [collapse2Aux] at hc
    | skipRun => simp [collapse2Aux] at hc
  | cons d cs ih =>
    intro st c hc
    cases st with
    | normal =>
      by_cases hd : p d = true
      · rw [collapse2Aux, if_pos hd] at hc
        rcases ih (RunState.pend d) c hc with hm | hs | ⟨e, he, hce⟩
        · exact Or.inl (List.mem_cons_of_mem d hm)
        · exact Or.inr (Or.inl hs)
        · refine Or.inl ?_
          rw [hce, ← RunState.pend.inj he]
          exact List.mem_cons_self d cs
      · rw [collapse2Aux, if_neg hd] at hc
        cases List.mem_cons.mp hc with
        | inl he => exact Or.inl (he ▸ List.mem_cons_self d cs)
        | inr hm =>
          rcases ih RunState.normal c hm with h1 | h2 | ⟨e, he, _⟩
          · exact Or.inl (List.mem_cons_of_mem d h1)
          · exact Or.inr (Or.inl h2)
          · exact absurd he (by simp)
    | pend e =>
      by_cases hd : p d = true
      · rw [collapse2Aux, if_pos hd] at hc
        cases List.mem_cons.mp hc with
        | inl he => exact Or.inr (Or.inl he)
        | inr hm =>
          rcases ih RunState.skipRun c hm with h1 | h2 | ⟨f, hf, _⟩
          · exact Or.inl (List.mem_cons_of_mem d h1)
          · exact Or.inr (Or.inl h2)
          · exact absurd hf (by simp)
      · rw [collapse2Aux, if_neg hd] at hc
        rcases List.mem_cons.mp hc with he | hm
        · exact Or.inr (Or.inr ⟨e, rfl, he⟩)
        · cases List.mem_cons.mp hm with
          | inl he2 => exact Or.inl (he2 ▸ List.mem_cons_self d cs)
          | inr hm2 =>
            rcases ih RunState.normal c hm2 with h1 | h2 | ⟨f, hf, _⟩
            · exact Or.inl (List.mem_cons_of_mem d h1)
            · exact Or.inr (Or.inl h2)
            · exact absurd hf (by simp)
    | skipRun =>
      by_cases hd : p d = true
      · rw [collapse2Aux, if_pos hd] at hc
        rcases ih RunState.skipRun c hc with h1 | h2 | ⟨f, hf, _⟩
        · exact Or.inl (List.mem_cons_of_mem d h1)
        · exact Or.inr (Or.inl h2)
        · exact absurd hf (by simp)
      · rw [collapse2Aux, if_neg hd] at hc
        cases List.mem_cons.mp hc with
        | inl he => exact Or.inl (he ▸ List.mem_cons_self d cs)
        | inr hm =>
          rcases ih RunState.normal c hm with h1 | h2 | ⟨f, hf, _⟩
          · exact Or.inl (List.mem_cons_of_mem d h1)
          · exact Or.inr (Or.inl h2)
          · exact absurd hf (by simp)

theorem collapse2Aux_skipRun_head (p : Char → Bool) :
    ∀ (l : List Char), ∀ x ∈ (collapse2Aux p RunState.skipRun l).head?, p x = false := by
  intro l
  induction l with
  | nil => intro x hx; simp [collapse2Aux] at hx
  | cons d cs ih =>
    intro x hx
    by_cases hd : p d = true
    · rw [collapse2Aux, if_pos hd] at hx
      exact ih x hx
    · rw [collapse2Aux, if_neg hd] at hx
      simp only [List.head?_cons, Option.mem_def, Option.some.injEq] at hx
      rw [← hx]
      exact eq_false_of_ne_true hd

theorem collapse2Aux_chain (p : Char → Bool) :
    ∀ (l : List Char) (st : RunState),
      List.Chain' (fun a b => (p a && p b) = false) (collapse2Aux p st l) := by
  intro l
  induction l with
  | nil =>
    intro st
    cases st with
    | pend d => simp [collapse2Aux]
    | normal => simp [collapse2Aux]
    | skipRun => simp [collapse2Aux]
  | cons d cs ih =>
    intro st
    cases st with
    | normal =>
      by_cases hd : p d = true
      · rw [collapse2Aux, if_pos hd]
        exact ih (RunState.pend d)
      · rw [collapse2Aux, if_neg hd]
        refine List.chain'_cons'.mpr ⟨?_, ih RunState.normal⟩
        intro y _
        simp [eq_false_of_ne_true hd]
    | pend e =>
      by_cases hd : p d = true
      · rw [collapse2Aux, if_pos hd]
        refine List.chain'_cons'.mpr ⟨?_, ih RunState.skipRun⟩
        intro y hy
        simp [collapse2Aux_skipRun_head p cs y hy]
      · rw [collapse2Aux, if_neg hd]
        refine List.chain'_cons'.mpr ⟨?_, ?_⟩
        · intro y hy
          simp only [List.head?_cons, Option.mem_def, Option.some.injEq] at hy
          simp [← hy, eq_false_of_ne_true hd]
        · refine List.chain'_cons'.mpr ⟨?_, ih RunState.normal⟩
          intro y _
          simp [eq_false_of_ne_true hd]
    | skipRun =>
      by_cases hd : p d = true
      · rw [collapse2Aux, if_pos hd]
        exact ih RunState.skipRun
      · rw [collapse2Aux, if_neg hd]
        refine List.chain'_cons'.mpr ⟨?_, ih RunState.normal⟩
        intro y _
        simp [eq_false_of_ne_true hd]

theorem nlrttab_subset_ctrl (c : Char) (h : isNlRtTabB c = true) : isCtrlB c = true := by
  simp only [isNlRtTabB, Bool.or_eq_true, beq_iff_eq] at h
  rcases h with (h | h) | h <;> (subst h; decide)

theorem doubleQuotes_doubles (l1 l2 : List Char) :
    doubleQuotes (l1 ++ squote :: l2) =
      doubleQuotes l1 ++ squote :: squote :: doubleQuotes l2 := by
  simp [doubleQuotes]

/-- C7: the sanitizer is the quote-doubling, run-collapsing, truncating
pipeline over the serialized record text: the result never exceeds
`max_len`, contains no control or newline/carriage-return/tab characters,
has no two adjacent whitespace characters, and the quote-doubling stage
doubles every single quote. -/
theorem cleanse_for_cortex_spec (ser : Option String) (fallback : String) (max_len : Nat) :
    (cleanse_for_cortex ser fallback max_len).data =
      (collapse2 isPySpaceB
        (collapseRuns isCtrlB
          (collapseRuns isNlRtTabB
            (doubleQuotes (ser.getD fallback).data)))).take max_len ∧
    (cleanse_for_cortex ser fallback max_len).length ≤ max_len ∧
    ((cleanse_for_cortex ser fallback max_len).data.all
      (fun c => !isCtrlB c && !isNlRtTabB c)) = true ∧
    List.Chain' (fun a b => (isPySpaceB a && isPySpaceB b) = false)
      (cleanse_for_cortex ser fallback max_len).data ∧
    (∀ l1 l2 : List Char,
      doubleQuotes (l1 ++ squote :: l2) =
        doubleQuotes l1 ++ squote :: squote :: doubleQuotes l2) := by
  refine ⟨rfl, ?_, ?_, ?_, doubleQuotes_doubles⟩
  · show (List.take max_len _).length ≤ max_len
    rw [List.length_take]
    exact min_le_left _ _
  · rw [List.all_eq_true]
    intro c hc
    have hc2 : c ∈ collapse2 isPySpaceB
        (collapseRuns isCtrlB
          (collapseRuns isNlRtTabB (doubleQuotes (ser.getD fallback).data))) :=
      List.take_subset _ _ hc
    have hctrl : isCtrlB c = false := by
      rcases collapse2Aux_mem isPySpaceB _ RunState.normal c hc2 with hm | hsp | ⟨d, hd, _⟩
      · exact collapseRunsAux_no_p isCtrlB (by decide) _ false c hm
      · rw [hsp]; decide
      · exact absurd hd (by simp)
    have hnl : isNlRtTabB c = false := by
      cases hv : isNlRtTabB c with
      | false => rfl
      | true => rw [nlrttab_subset_ctrl c hv] at hctrl; cases hctrl
    simp [hctrl, hnl]
  · exact List.Chain'.prefix (collapse2Aux_chain isPySpaceB _ RunState.normal)
      (List.take_prefix _ _)

theorem containsSeq_nil_needle : ∀ l : List Char, containsSeq [] l = true := by
  intro l
  cases l with
  | nil => rfl
  | cons c cs => simp [containsSeq]

theorem containsSeq_append_left (needle l1 l2 : List Char)
    (h : containsSeq needle l1 = true) : containsSeq needle (l1 ++ l2) = true := by
  induction l1 with
  | nil =>
    simp only [containsSeq, List.isEmpty_iff] at h
    rw [h, List.nil_append]
    exact containsSeq_nil_needle l2
  | cons c cs ih =>
    simp only [containsSeq, Bool.or_eq_true] at h ⊢
    cases h with
    | inl hp =>
      refine Or.inl ?_
      rw [List.isPrefixOf_iff_prefix] at hp ⊢
      exact hp.trans (List.prefix_append (c :: cs) l2)
    | inr hm => exact Or.inr (ih hm)

/-- C6: whenever any step of the summarization call fails — the service
returns an error, or the response frame is malformed (no usable row) — the
call returns the descriptive placeholder carrying the skip indication instead
of raising; the function is total, so no failure aborts the surrounding flow. -/
theorem safe_cortex_call_never_raises (ser : Option String) (fallback : String)
    (svc : String → SqlOutcome) (e : String)
    (h : safe_cortex_body (svc (sql_ai (cleanse_for_cortex ser fallback 3000)))
      = Except.error e) :
    safe_cortex_call ser fallback svc = "AI summary skipped: " ++ e ∧
    containsSeq "skipped".data (safe_cortex_call ser fallback svc).data = true := by
  have h1 : safe_cortex_call ser fallback svc = "AI summary skipped: " ++ e := by
    show (match safe_cortex_body (svc (sql_ai (cleanse_for_cortex ser fallback 3000))) with
      | Except.ok v => v
      | Except.error e2 => "AI summary skipped: " ++ e2) = "AI summary skipped: " ++ e
    rw [h]
  refine ⟨h1, ?_⟩
  rw [h1, String.data_append]
  exact containsSeq_append_left _ _ _ (by decide)

/-- Witness for C6: a forced service failure and a malformed (row-less)
response both yield the skip placeholder. -/
theorem safe_cortex_call_witness :
    safe_cortex_call none "rec" (fun _ => SqlOutcome.err "service down")
      = "AI summary skipped: service down" ∧
    safe_cortex_call none "rec" (fun _ => SqlOutcome.ok ⟨["MODEL_OUTPUT"], []⟩)
      = "AI summary skipped: single positional indexer is out-of-bounds" :=
  ⟨(safe_cortex_call_never_raises none "rec" (fun _ => SqlOutcome.err "service down")
      "service down" rfl).1,
   (safe_cortex_call_never_raises none "rec" (fun _ => SqlOutcome.ok ⟨["MODEL_OUTPUT"], []⟩)
      "single positional indexer is out-of-bounds" rfl).1⟩

/-- C8: for every combination of download/analysis/summarization outcomes the
freshly created scratch directory is removed after the request: the final
directory set equals the initial one and never retains `tmp_dir`. -/
theorem read_file_request_releases_scratch (tmp_dir : String)
    (download analyze summarize : StepOutcome) (fs : FSState)
    (hfresh : tmp_dir ∉ fs.dirs) :
    (read_file_request tmp_dir download analyze summarize fs).1.dirs = fs.dirs ∧
    tmp_dir ∉ (read_file_request tmp_dir download analyze summarize fs).1.dirs := by
  have h1 : (read_file_request tmp_dir download analyze summarize fs).1.dirs
      = (tmp_dir :: fs.dirs).erase tmp_dir := rfl
  rw [h1, List.erase_cons_head]
  exact ⟨rfl, hfresh⟩

/-- Witness for C8: a failing download on a concrete state still leaves no
scratch directory behind. -/
theorem read_file_request_witness :
    (read_file_request "sf_stage_1" (StepOutcome.exc "timeout") StepOutcome.ok
      StepOutcome.ok ⟨["home"]⟩).1.dirs = ["home"] ∧
    "sf_stage_1" ∉ (read_file_request "sf_stage_1" (StepOutcome.exc "timeout")
      StepOutcome.ok StepOutcome.ok ⟨["home"]⟩).1.dirs :=
  read_file_request_releases_scratch "sf_stage_1" (StepOutcome.exc "timeout")
    StepOutcome.ok StepOutcome.ok ⟨["home"]⟩ (by decide)

theorem avroLoop_eq_takeStream (α : Type) (reader : Nat → Option α) :
    ∀ (n i : Nat), i + n = 10000000 →
      avroLoop α reader n i = takeStream α reader n i := by
  intro n
  induction n with
  | zero => intro i _; rfl
  | succ m ih =>
    intro i h
    simp only [avroLoop, takeStream]
    cases reader i with
    | none => rfl
    | some r =>
      by_cases hi : 9999999 ≤ i
      · have hm : m = 0 := by omega
        subst hm
        simp [hi, takeStream]
      · rw [if_neg hi, ih (i+1) (by omega)]

theorem takeStream_length_le (α : Type) (reader : Nat → Option α) :
    ∀ (n i : Nat), (takeStream α reader n i).length ≤ n := by
  intro n
  induction n with
  | zero => intro i; simp [takeStream]
  | succ m ih =>
    intro i
    simp only [takeStream]
    cases reader i with
    | none => simp
    | some r => simpa using Nat.succ_le_succ (ih (i+1))

theorem takeStream_getElem? (α : Type) (reader : Nat → Option α) :
    ∀ (n i j : Nat) (r : α), (takeStream α reader n i)[j]? = some r →
      reader (i + j) = some r := by
  intro n
  induction n with
  | zero => intro i j r h; simp [takeStream] at h
  | succ m ih =>
    intro i j r h
    simp only [takeStream] at h
    cases hr : reader i with
    | none => rw [hr] at h; simp at h
    | some r0 =>
      rw [hr] at h
      cases j with
      | zero =>
        simp at h
        rw [Nat.add_zero, hr, h]
      | succ k =>
        simp only [List.getElem?_cons_succ] at h
        have := ih (i+1) k r h
        rw [show i + (k + 1) = i + 1 + k by omega]
        exact this

theorem takeStream_length_full (α : Type) (reader : Nat → Option α)
    (hall : ∀ k, (reader k).isSome = true) :
    ∀ (n i : Nat), (takeStream α reader n i).length = n := by
  intro n
  induction n with
  | zero => intro i; rfl
  | succ m ih =>
    intro i
    simp only [takeStream]
    cases hr : reader i with
    | none =>
      have hi := hall i
      rw [hr] at hi
      simp at hi
    | some r => simp [ih (i+1)]

/-- C9: the avro reading loop returns records in file order, stops after at
most 10,000,000 records, and on a pathological never-ending stream returns
exactly the cap — so the loop always terminates with a bounded RecordSet. -/
theorem avroRecords_spec (α : Type) (reader : Nat → Option α) :
    (avroRecords α reader).length ≤ 10000000 ∧
    (∀ (j : Nat) (r : α), (avroRecords α reader)[j]? = some r → reader j = some r) ∧
    ((∀ k, (reader k).isSome = true) → (avroRecords α reader).length = 10000000) := by
  have he : avroRecords α reader = takeStream α reader 10000000 0 :=
    avroLoop_eq_takeStream α reader 10000000 0 rfl
  refine ⟨?_, ?_, ?_⟩
  · rw [he]; exact takeStream_length_le α reader 10000000 0
  · intro j r h
    rw [he] at h
    have := takeStream_getElem? α reader 10000000 0 j r h
    rwa [Nat.zero_add] at this
  · intro hall
    rw [he]
    exact takeStream_length_full α reader hall 10000000 0

/-- Witness for C9: on the never-ending stream of naturals the loop stops at
exactly the 10,000,000-record cap. -/
theorem avroRecords_witness :
    (avroRecords Nat (fun k => some k)).length = 10000000 :=
  (avroRecords_spec Nat (fun k => some k)).2.2 (fun _ => rfl)

/-- C10 counterexample: the name `"a |"` does not contain the separator
`" | "`, yet its label `"a | | t"` splits back to `"a"`, not `"a |"` — the
inserted separator merges with the name's trailing `" |"`. -/
theorem label_roundtrip_counterexample :
    containsSeq " | ".data ("a |" : String).data = false ∧
    selected_file_only_path (fileLabel "a |" "t") = "a" ∧
    selected_file_only_path (fileLabel "a |" "t") ≠ "a |" := by
  refine ⟨by decide, by decide, by decide⟩

theorem pySplitFirst_label (ys : List Char) :
    ∀ xs : List Char, ¬ ([' ', '|', ' '] <:+: xs) → ¬ ([' ', '|'] <:+ xs) →
      pySplitFirst [' ', '|', ' '] (xs ++ [' ', '|', ' '] ++ ys) = xs := by
  intro xs
  induction xs with
  | nil =>
    intro _ _
    show pySplitFirst [' ', '|', ' '] (' ' :: '|' :: ' ' :: ys) = []
    simp [pySplitFirst, List.isPrefixOf]
  | cons c cs ih =>
    intro hinf hsuf
    show pySplitFirst [' ', '|', ' '] (c :: (cs ++ [' ', '|', ' '] ++ ys)) = c :: cs
    have hcond : [' ', '|', ' '].isPrefixOf (c :: (cs ++ [' ', '|', ' '] ++ ys)) = false := by
      cases htest : [' ', '|', ' '].isPrefixOf (c :: (cs ++ [' ', '|', ' '] ++ ys)) with
      | false => rfl
      | true =>
        exfalso
        obtain ⟨t, ht⟩ := List.isPrefixOf_iff_prefix.mp htest
        cases cs with
        | nil => simp at ht
        | cons d ds =>
          cases ds with
          | nil =>
            have h1 : ' ' = c := by
              have := congrArg (fun l => l.head?) ht
              simpa using this
            have h2 : '|' = d := by
              have := congrArg (fun l => l[1]?) ht
              simpa using this
            exact hsuf (by rw [← h1, ← h2])
          | cons e es =>
            have h1 : ' ' = c := by
              have := congrArg (fun l => l.head?) ht
              simpa using this
            have h2 : '|' = d := by
              have := congrArg (fun l => l[1]?) ht
              simpa using this
            have h3 : ' ' = e := by
              have := congrArg (fun l => l[2]?) ht
              simpa using this
            refine hinf ?_
            refine List.IsPrefix.isInfix ⟨es, ?_⟩
            rw [← h1, ← h2, ← h3]
            rfl
    have hstep : pySplitFirst [' ', '|', ' '] (c :: (cs ++ [' ', '|', ' '] ++ ys)) =
        c :: pySplitFirst [' ', '|', ' '] (cs ++ [' ', '|', ' '] ++ ys) := by
      simp only [pySplitFirst, hcond]
      simp
    rw [hstep,
      ih (fun h => hinf (List.infix_cons h))
         (fun h => hsuf (h.trans (List.suffix_cons c cs)))]

theorem pySplitFirst_shorter (sep : List Char) (hne : sep ≠ []) :
    ∀ (xs zs : List Char), sep <:+: xs →
      (pySplitFirst sep (xs ++ zs)).length < xs.length := by
  intro xs
  induction xs with
  | nil =>
    intro zs hinf
    exfalso
    obtain ⟨s, t, hst⟩ := hinf
    simp only [List.append_eq_nil] at hst
    exact hne hst.1.2
  | cons c cs ih =>
    intro zs hinf
    show (pySplitFirst sep (c :: (cs ++ zs))).length < cs.length + 1
    cases hcond : sep.isPrefixOf (c :: (cs ++ zs)) with
    | true =>
      have : pySplitFirst sep (c :: (cs ++ zs)) = [] := by
        simp only [pySplitFirst, hcond]
        simp
      rw [this]
      simp
    | false =>
      have hinf2 : sep <:+: cs := by
        obtain ⟨s, t, hst⟩ := hinf
        cases s with
        | nil =>
          exfalso
          have hp : sep <+: c :: (cs ++ zs) := by
            refine ⟨t ++ zs, ?_⟩
            have hst2 : sep ++ t = c :: cs := by simpa using hst
            rw [← List.append_assoc, hst2]
            rfl
          rw [← List.isPrefixOf_iff_prefix] at hp
          rw [hcond] at hp
          cases hp
        | cons a as =>
          refine ⟨as, t, ?_⟩
          have hst2 : a :: ((as ++ sep) ++ t) = c :: cs := by simpa using hst
          exact (List.cons.inj hst2).2
      have hstep : pySplitFirst sep (c :: (cs ++ zs)) =
          c :: pySplitFirst sep (cs ++ zs) := by
        simp only [pySplitFirst, hcond]
        simp
      rw [hstep]
      have := ih zs hinf2
      simp only [List.length_cons]
      omega

/-- C10 (amended): label-based selection round-trips to the object name
exactly when the name neither contains the separator `" | "` nor ends with
`" |"` (the original claim's hypothesis misses the trailing-`" |"` case, where
the name merges with the inserted separator); when the name does contain
`" | "`, the round-trip always fails. -/
theorem label_roundtrip_amended :
    (∀ name last_modified : String,
      ¬ ([' ', '|', ' '] <:+: name.data) → ¬ ([' ', '|'] <:+ name.data) →
      selected_file_only_path (fileLabel name last_modified) = name) ∧
    (∀ name last_modified : String, [' ', '|', ' '] <:+: name.data →
      selected_file_only_path (fileLabel name last_modified) ≠ name) := by
  have hsep : (" | " : String).data = [' ', '|', ' '] := rfl
  have hlabel : ∀ name lm : String,
      (fileLabel name lm).data = (name.data ++ [' ', '|', ' ']) ++ lm.data := by
    intro name lm
    show ((name ++ " | ") ++ lm).data = _
    rw [String.data_append, String.data_append, hsep]
  constructor
  · intro name lm h1 h2
    show (⟨pySplitFirst " | ".data (fileLabel name lm).data⟩ : String) = name
    rw [hsep, hlabel name lm, pySplitFirst_label lm.data name.data h1 h2]
  · intro name lm hinf heq
    have hlt := pySplitFirst_shorter [' ', '|', ' '] (by simp) name.data
      ([' ', '|', ' '] ++ lm.data) hinf
    have hlen : (selected_file_only_path (fileLabel name lm)).data.length
        < name.data.length := by
      show (pySplitFirst " | ".data (fileLabel name lm).data).length < _
      rw [hsep, hlabel name lm, List.append_assoc]
      exact hlt
    rw [heq] at hlen
    exact absurd hlen (lt_irrefl _)

/-- Witness for C10: a realistic name round-trips through its label. -/
theorem label_roundtrip_witness :
    selected_file_only_path (fileLabel "part-0.parquet" "2024-01-01 00:00:00")
      = "part-0.parquet" :=
  label_roundtrip_amended.1 "part-0.parquet" "2024-01-01 00:00:00"
    (by decide) (by decide)
